import Mathlib

/-!
Verification of the linux_mail_db log-tailing and correlation engine.

The Rust sources (src/mail.rs, src/tail.rs, src/endpoints.rs) are shallowly
embedded below: strings are lists of characters, the in-memory mail database
(an FxHashMap from recipient address to a vector of mail records) is an
association list, file tailing is modelled by explicit state passing over a
list of filesystem events, and the fallible pieces return Option/Except.
-/

namespace LinuxMailDb

/-- Strings from the Rust source are modelled as lists of characters. -/
abbrev Str := List Char

/-- Model of Rust `str::contains` with a string pattern: `pat` occurs as a
contiguous substring of `hay`. -/
def containsSeq (hay pat : Str) : Bool :=
  match hay with
  | [] => pat.isEmpty
  | _ :: t => pat.isPrefixOf hay || containsSeq t pat

/-- Model of Rust `str::split(c)`: the fields between occurrences of the
separator, empty fields included (always at least one field). -/
def splitOnChar (c : Char) : Str → List Str
  | [] => [[]]
  | x :: xs =>
    let r := splitOnChar c xs
    if x = c then [] :: r
    else
      match r with
      | [] => [[x]]
      | y :: ys => (x :: y) :: ys

/-- Model of Rust `str::trim`: drop leading and trailing whitespace. -/
def trimSeq (l : Str) : Str :=
  ((l.dropWhile Char.isWhitespace).reverse.dropWhile Char.isWhitespace).reverse

/-- Accumulator worker for `splitWs`. -/
def splitWsAux : Str → Str → List Str
  | [], acc => if acc = [] then [] else [acc.reverse]
  | c :: cs, acc =>
    if c.isWhitespace then
      if acc = [] then splitWsAux cs [] else acc.reverse :: splitWsAux cs []
    else splitWsAux cs (c :: acc)

/-- Model of Rust `str::split_whitespace`: the maximal runs of
non-whitespace characters. -/
def splitWs (l : Str) : List Str := splitWsAux l []

/-- Fuel-indexed worker for `replaceSeq`; the fuel is the length of the
scanned list, which suffices for a non-empty pattern. -/
def replaceFuel (pat rep : Str) : Nat → Str → Str
  | 0, l => l
  | _ + 1, [] => []
  | n + 1, c :: cs =>
    if pat.isPrefixOf (c :: cs) then rep ++ replaceFuel pat rep n ((c :: cs).drop pat.length)
    else c :: replaceFuel pat rep n cs

/-- Model of Rust `str::replace(pat, rep)`: replace every leftmost
non-overlapping occurrence of `pat` (the source only uses non-empty
patterns). -/
def replaceSeq (pat rep l : Str) : Str := replaceFuel pat rep l.length l

/-- Model of Rust `str::replace(['<', '>'], "")`: remove every angle
bracket character. -/
def stripAngles (l : Str) : Str := l.filter fun c => !(c = '<' || c = '>')

/-- Model of Rust `str::to_lowercase` (character-wise lowering). -/
def lowerSeq (l : Str) : Str := l.map Char.toLower

/-- A mail record (`Mail` in src/mail.rs): message id, originating
delivery-log line, subject, recipient address. -/
structure Mail where
  id : Str
  line : Option Str
  subject : Option Str
  toAddr : Str
deriving DecidableEq, Repr

/-- The in-memory mail database (`MailDB`s FxHashMap from recipient address
to records), modelled as an association list. -/
abbrev DB := List (Str × List Mail)

/-- First-match association-list lookup (HashMap `get`/`get_mut`). -/
def dbLookup : DB → Str → Option (List Mail)
  | [], _ => none
  | (k, v) :: t, key => if k = key then some v else dbLookup t key

/-- The literal marker `"postfix/smtp["` from `parse_mails`. -/
def smtpMarker : Str := "postfix/smtp[".data

/-- The literal marker `"ESMTPS id"` from `parse_mail_subjects`. -/
def esmtpsMarker : Str := "ESMTPS id".data

/-- The literal `"To: "` pattern from `parse_mail_subjects`. -/
def toPat : Str := "To: ".data

/-- The literal `"Subject: "` pattern from `parse_mail_subjects`. -/
def subjPat : Str := "Subject: ".data

/-- Model of `id_from_log_line` (src/mail.rs:109): take the first four
colon-delimited fields, trim each; require exactly four fields and a
ten-character fourth field. -/
def id_from_log_line (l : Str) : Option Str :=
  match ((splitOnChar ':' l).take 4).map trimSeq with
  | [_, _, _, d] => if d.length = 10 then some d else none
  | _ => none

/-- Model of `email_from_log_line` (src/mail.rs:121): the text after the
first `<` and before the second `<`, truncated at its first `>`; it must
contain `@`. -/
def email_from_log_line (l : Str) : Option Str :=
  match (splitOnChar '<' l).take 2 with
  | [_, seg] =>
    match (splitOnChar '>' seg).take 1 with
    | [x] => if '@' ∈ x then some x else none
    | _ => none
  | _ => none

/-- One iteration of the `parse_mails` loop (src/mail.rs:150): the record
emitted for a single delivery-log line, if any. -/
def parseMailsLine (l : Str) : Option Mail :=
  if containsSeq l smtpMarker then
    match email_from_log_line l with
    | none => none
    | some e =>
      match id_from_log_line l with
      | none => none
      | some i => if e ≠ [] ∧ i ≠ [] then some ⟨i, some l, none, e⟩ else none
  else none

/-- The `parse_mails` accumulator loop, pushing each emitted record. -/
def parseMailsLoop : List Str → List Mail → List Mail
  | [], acc => acc
  | l :: ls, acc =>
    match parseMailsLine l with
    | some m => parseMailsLoop ls (acc ++ [m])
    | none => parseMailsLoop ls acc

/-- Model of `parse_mails` (src/mail.rs:150). -/
def parseMails (ls : List Str) : List Mail := parseMailsLoop ls []

/-- Mutable state of the `parse_mail_subjects` loop (src/mail.rs:199):
the `id`, `subject` and `to` buffers and the `parse_mail` flag. -/
structure PMState where
  id : Str
  subject : Str
  toAddr : Str
  parseMail : Bool
deriving DecidableEq, Repr

/-- One iteration of the `parse_mail_subjects` loop (src/mail.rs:199) on a
single line: the next state and the record emitted, if any.  The marker
branch fires only when `parse_mail` is unset; the last whitespace token of
the marker line becomes the id (the source indexes `split[len-1]`, which
cannot panic because a marker line has non-whitespace characters). -/
def pmStep (st : PMState) (l : Str) : PMState × Option Mail :=
  let st1 := if st.parseMail = false ∧ containsSeq l esmtpsMarker = true then
    ⟨(splitWs l).getLastD [], [], [], true⟩ else st
  if st1.parseMail = false then (st1, none) else
  let st2 := if st1.toAddr = [] ∧ toPat.isPrefixOf l = true then
    { st1 with toAddr := stripAngles (replaceSeq toPat [] l) } else st1
  let st3 := if st2.subject = [] ∧ subjPat.isPrefixOf l = true then
    { st2 with subject := replaceSeq subjPat [] l } else st2
  if st3.subject ≠ [] ∧ st3.toAddr ≠ [] ∧ st3.id ≠ [] then
    ({ st3 with parseMail := false }, some ⟨st3.id, none, some st3.subject, st3.toAddr⟩)
  else (st3, none)

/-- The `parse_mail_subjects` loop over all lines, collecting emissions in
order. -/
def pmLoop (st : PMState) : List Str → List Mail
  | [] => []
  | l :: ls =>
    match pmStep st l with
    | (st1, some m) => m :: pmLoop st1 ls
    | (st1, none) => pmLoop st1 ls

/-- Model of `parse_mail_subjects` (src/mail.rs:199), starting Idle with
empty buffers. -/
def parseMailSubjects (ls : List Str) : List Mail := pmLoop ⟨[], [], [], false⟩ ls

/-- Model of one iteration of `MailDB::insert_mails` (src/mail.rs:56):
`entry(to).or_insert(vec![])`, then push unless a record with the same id
already sits in the bucket; returns the new table and the count (0 or 1). -/
def insertOne : DB → Mail → DB × Nat
  | [], m => ([(m.toAddr, [m])], 1)
  | (k, v) :: t, m =>
    if k = m.toAddr then
      if ∃ r ∈ v, r.id = m.id then ((k, v) :: t, 0) else ((k, v ++ [m]) :: t, 1)
    else
      let q := insertOne t m
      ((k, v) :: q.1, q.2)

/-- Model of `MailDB::insert_mails` (src/mail.rs:56) over a batch. -/
def insertMails : DB → List Mail → DB × Nat
  | db, [] => (db, 0)
  | db, m :: ms =>
    let p := insertOne db m
    let q := insertMails p.1 ms
    (q.1, p.2 + q.2)

/-- Model of the bucket scan in `MailDB::update_mail_subjects`
(src/mail.rs:42): set the subject of the first record whose subject is
unset and whose id matches, and stop there. -/
def updateBucket (m : Mail) : List Mail → List Mail × Nat
  | [] => ([], 0)
  | r :: rs =>
    if r.subject = none ∧ r.id = m.id then ({ r with subject := m.subject } :: rs, 1)
    else
      let p := updateBucket m rs
      (r :: p.1, p.2)

/-- Model of one iteration of `MailDB::update_mail_subjects`
(src/mail.rs:37): look up the `to` bucket; a missing bucket is only a
warning (no change, count 0). -/
def updateOne : DB → Mail → DB × Nat
  | [], _ => ([], 0)
  | (k, v) :: t, m =>
    if k = m.toAddr then
      let p := updateBucket m v
      ((k, p.1) :: t, p.2)
    else
      let q := updateOne t m
      ((k, v) :: q.1, q.2)

/-- Model of `MailDB::update_mail_subjects` (src/mail.rs:34) over a batch. -/
def updateSubjects : DB → List Mail → DB × Nat
  | db, [] => (db, 0)
  | db, m :: ms =>
    let p := updateOne db m
    let q := updateSubjects p.1 ms
    (q.1, p.2 + q.2)

/-- A batch operation against the shared table: an `insert_mails` call or
an `update_mail_subjects` call. -/
inductive Op where
  | insertOp (ms : List Mail)
  | updateOp (ms : List Mail)

/-- Apply one batch operation to the table. -/
def applyOp (db : DB) : Op → DB
  | .insertOp ms => (insertMails db ms).1
  | .updateOp ms => (updateSubjects db ms).1

/-- Apply a sequence of batch operations to the initially-empty table. -/
def applyOps (ops : List Op) : DB := ops.foldl applyOp []

/-- Byte-wise (codepoint-wise) lexicographic comparison, modelling the
`Ord` used by Rust `Option<String>::cmp` on the `Some` payloads. -/
def lexLe : Str → Str → Bool
  | [], _ => true
  | _ :: _, [] => false
  | a :: as, b :: bs =>
    if a.toNat < b.toNat then true
    else if b.toNat < a.toNat then false
    else lexLe as bs

/-- Rust `Option<String>` ordering as used by `a.line.cmp(&b.line)` in
`find_mail`: `None` sorts before every `Some`. -/
def lineLe : Option Str → Option Str → Bool
  | none, _ => true
  | some _, none => false
  | some a, some b => lexLe a b

/-- The sort relation of `find_mail`s `sort_by` call (src/endpoints.rs:45). -/
def mailLe (a b : Mail) : Prop := lineLe a.line b.line = true

instance : DecidableRel mailLe := fun a b => by unfold mailLe; infer_instance

/-- Model of `v.sort_by(|a, b| a.line.cmp(&b.line))` (src/endpoints.rs:45);
the source's sort is modelled by insertion sort, which produces a
permutation ordered by the same comparator. -/
def sortByLine (v : List Mail) : List Mail := List.insertionSort mailLe v

/-- The query parameters of `find_mail` (src/endpoints.rs:11). -/
structure FindMailQuery where
  email_address_filter : Str
  subject_filter : Option Str

/-- Model of the `retain` step of `find_mail` (src/endpoints.rs:36): with a
subject filter, keep records whose subject is set and case-insensitively
contains the filter; with no filter, keep the bucket unchanged. -/
def bucketFilter (q : FindMailQuery) (v : List Mail) : List Mail :=
  match q.subject_filter with
  | none => v
  | some f =>
    v.filter fun m =>
      match m.subject with
      | some s => containsSeq (lowerSeq s) (lowerSeq f)
      | none => false

/-- Model of the result map built by `find_mail` (src/endpoints.rs:31):
filter keys by address substring, filter buckets by subject, sort each
bucket by raw line, drop emptied buckets. -/
def findResults (q : FindMailQuery) (db : DB) : DB :=
  ((db.filter fun p => containsSeq p.1 q.email_address_filter).map
    fun p => (p.1, sortByLine (bucketFilter q p.2))).filter fun p => !p.2.isEmpty

/-- The response of `find_mail`: HTTP status and the optional result map. -/
structure FindMailResponse where
  status : Nat
  results : Option DB
deriving DecidableEq, Repr

/-- Model of the `find_mail` endpoint (src/endpoints.rs:24). -/
def findMail (q : FindMailQuery) (db : DB) : FindMailResponse :=
  let r := findResults q db
  if r.isEmpty then ⟨404, none⟩ else ⟨200, some r⟩

/-- The filesystem event kinds distinguished by `FileTail::parse_event`
(src/tail.rs:124). -/
inductive EvKind where
  | create
  | remove
  | modify
  | access
  | other
deriving DecidableEq, Repr

/-- A `notify::Result<Event>` delivered to the tailer: an event kind or a
watcher error. -/
inductive FsEvent where
  | ok (k : EvKind)
  | errEvent
deriving DecidableEq, Repr

/-- The `ParseEventError` taxonomy (src/tail.rs:15). -/
inductive PEErr where
  | unhandledEvent (k : EvKind)
  | fileReading
  | otherErr
deriving DecidableEq, Repr

/-- The tailer's cursor: the byte offset `pos` (src/tail.rs:40). -/
structure TailState where
  pos : Nat
deriving DecidableEq, Repr

/-- Model of `FileTail::reset` (src/tail.rs:51): set `pos` to 0, then
re-subscribe the watch, which can fail (a failure surfaces as a
file-reading error through the `From<notify::Error>` conversion). -/
def ftReset (watchOk : Bool) : TailState × Except PEErr Unit :=
  (⟨0⟩, if watchOk then .ok () else .error .fileReading)

/-- Model of `FileTail::read` (src/tail.rs:74): open the file (`none`
models an open failure), seek to `pos`, hand back the remaining content
and advance `pos` to the file length. -/
def ftRead (file : Option Str) (st : TailState) : TailState × Except PEErr Str :=
  match file with
  | none => (st, .error .fileReading)
  | some c => (⟨c.length⟩, .ok (c.drop st.pos))

/-- Model of `FileTail::parse_event` (src/tail.rs:124): create/remove
resets then reads, modify reads, access yields nothing, anything else is
an unhandled-event error; a watcher error is the passthrough case. -/
def parseEvent (ev : FsEvent) (watchOk : Bool) (file : Option Str) (st : TailState) :
    TailState × Except PEErr (Option Str) :=
  match ev with
  | .errEvent => (st, .error .otherErr)
  | .ok k =>
    match k with
    | .create | .remove =>
      let p := ftReset watchOk
      match p.2 with
      | .error e => (p.1, .error e)
      | .ok _ =>
        let q := ftRead file p.1
        match q.2 with
        | .error e => (q.1, .error e)
        | .ok lines => (q.1, .ok (some lines))
    | .modify =>
      let q := ftRead file st
      match q.2 with
      | .error e => (q.1, .error e)
      | .ok lines => (q.1, .ok (some lines))
    | .access => (st, .ok none)
    | .other => (st, .error (.unhandledEvent k))

/-- Model of `FileTail::retry` (src/tail.rs:58): up to `n` attempts, each
setting `pos := 0` and re-watching; the boolean list gives each watch
attempt's outcome.  Returns the final state and whether an attempt
succeeded. -/
def ftRetry : TailState → Nat → List Bool → TailState × Bool
  | st, 0, _ => (st, false)
  | _, n + 1, [] => ftRetry ⟨0⟩ n []
  | _, n + 1, b :: bs => if b then (⟨0⟩, true) else ftRetry ⟨0⟩ n bs

/-- How a `FileTail::tail` run ends: the event channel closed, or the
retry loop was exhausted (the `?` on `retry` propagates the error). -/
inductive TailEnd where
  | channelClosed
  | retryExhausted
deriving DecidableEq, Repr

/-- The per-event inputs of a tail run: the delivered event, whether the
watch call would succeed, the file content visible to `read` (`none` for
an open failure), and the watch outcomes available to the retry loop. -/
structure EvInput where
  ev : FsEvent
  watchOk : Bool
  file : Option Str
  resets : List Bool

/-- Model of the `FileTail::tail` loop (src/tail.rs:103): emitted line
batches plus how the run ends.  File-reading errors enter the 5-attempt
retry loop; other and unhandled-event errors are logged and skipped. -/
def ftTail : TailState → List EvInput → List Str × TailEnd
  | _, [] => ([], .channelClosed)
  | st, e :: rest =>
    let p := parseEvent e.ev e.watchOk e.file st
    match p.2 with
    | .ok (some lines) =>
      let q := ftTail p.1 rest
      (lines :: q.1, q.2)
    | .ok none => ftTail p.1 rest
    | .error .fileReading =>
      let r := ftRetry p.1 5 e.resets
      if r.2 then ftTail r.1 rest else ([], .retryExhausted)
    | .error (.unhandledEvent _) => ftTail p.1 rest
    | .error .otherErr => ftTail p.1 rest

/-- Modelled from the spec: the claim's reading of the recipient
extraction — "the text strictly between the first `<` and the next `>` on
the line" (spec section 4.2); used only to exhibit where the source's
`email_from_log_line` differs. -/
def specBetweenAngles (l : Str) : Option Str :=
  match l.dropWhile (fun c => c != '<') with
  | [] => none
  | _ :: t => if t.any (fun c => c == '>') then some (t.takeWhile fun c => c != '>') else none

/-- Concrete line `"ESMTPS id X"`. -/
def exMarkLine : Str := "ESMTPS id X".data

/-- Concrete line `"ESMTPS id Y"`. -/
def exMarkLine2 : Str := "ESMTPS id Y".data

/-- Concrete line `"To: <a@b.com>"`. -/
def exToLine : Str := "To: <a@b.com>".data

/-- Concrete line `"Subject: hi"`. -/
def exSubjLine : Str := "Subject: hi".data

/-- The id token `"X"`. -/
def strX : Str := "X".data

/-- The subject `"hi"`. -/
def strHi : Str := "hi".data

/-- The address `"a@b.com"`. -/
def addrAB : Str := "a@b.com".data

/-- The four-line input of claim C1. -/
def c1Lines : List Str := [exMarkLine, exMarkLine2, exToLine, exSubjLine]

/-- A delivery-log line whose bracketed region holds a second `<` before
the first `>`: `"A: B: C: ABCDEFGHIJ: postfix/smtp[9]: to=<p<u@d>, ok"`. -/
def c2Line : Str := "A: B: C: ABCDEFGHIJ: postfix/smtp[9]: to=<p<u@d>, ok".data

/-- The text strictly between the first `<` and the next `>` of `c2Line`. -/
def c2SpecAddr : Str := "p<u@d".data

/-- A `To:` line whose remainder itself contains `"To: "`. -/
def c3ToLine : Str := "To: aTo: b".data

/-- The three-line input of the C3 counterexample. -/
def c3Lines : List Str := [exMarkLine, c3ToLine, exSubjLine]

/-- The recipient the source computes for `c3ToLine` (`replace` removes
every `"To: "` occurrence). -/
def c3CodeTo : Str := "ab".data

/-- Every bucket of the table has pairwise distinct record ids. -/
def BucketsOk (db : DB) : Prop := ∀ p ∈ db, ((p.2).map Mail.id).Nodup

/-- Every record sits in the bucket keyed by its own recipient address. -/
def ToOk (db : DB) : Prop := ∀ p ∈ db, ∀ r ∈ p.2, r.toAddr = p.1

/-- The bucket stored under a key, or `[]` when absent. -/
def bucketOf (db : DB) (k : Str) : List Mail := (dbLookup db k).getD []

/-- How many records with the given id sit in the bucket of the given
recipient address. -/
def countPair (db : DB) (k i : Str) : Nat :=
  ((bucketOf db k).filter fun r => decide (r.id = i)).length

/-- The frame relation of a subject update on one record: id, recipient
and raw line are untouched, and the subject either kept its value or was
previously unset. -/
def RecFrame (r r' : Mail) : Prop :=
  r'.id = r.id ∧ r'.toAddr = r.toAddr ∧ r'.line = r.line ∧
    (r'.subject = r.subject ∨ r.subject = none)

/-- The frame relation of a subject update on one table entry: the key is
unchanged and the bucket records are pointwise `RecFrame`-related. -/
def PairFrame (p q : Str × List Mail) : Prop :=
  q.1 = p.1 ∧ List.Forall₂ RecFrame p.2 q.2

/-- A delivery-log record used by witnesses. -/
def wMailA : Mail := ⟨"ABCDEFGHIJ".data, some ("raw line".data), none, addrAB⟩

/-- The matching subject-bearing record used by witnesses. -/
def wMailAS : Mail := ⟨"ABCDEFGHIJ".data, none, some strHi, addrAB⟩

/-- A concrete matching delivery-log line used by witnesses. -/
def wLogLine : Str := "A: B: C: ABCDEFGHIJ: postfix/smtp[9]: to=<u@d.com>, ok".data

/-- A query with an empty address filter and no subject filter. -/
def wQuery : FindMailQuery := ⟨[], none⟩

/-- A one-entry table used by witnesses. -/
def wDb9 : DB := [(addrAB, [wMailA])]

/-- The result map `findMail wQuery wDb9` produces. -/
def wOut9 : DB := [(addrAB, [wMailA])]

/-! Helper lemmas about the parsers. -/

/-- The `parse_mails` push loop is the in-order `filterMap` of the
per-line function. -/
theorem parseMailsLoop_eq (ls : List Str) :
    ∀ acc, parseMailsLoop ls acc = acc ++ ls.filterMap parseMailsLine := by
  induction ls with
  | nil => intro acc; simp [parseMailsLoop]
  | cons l ls ih =>
    intro acc
    cases h : parseMailsLine l <;>
      simp [parseMailsLoop, h, ih, List.filterMap_cons]

/-- A successfully extracted recipient contains `@`, hence is non-empty. -/
theorem email_from_log_line_ne_nil {l e : Str} (h : email_from_log_line l = some e) :
    e ≠ [] := by
  unfold email_from_log_line at h
  split at h
  · split at h
    · split at h
      · cases h
        rintro rfl
        simp_all
      · cases h
    · cases h
  · cases h

/-- A successfully extracted message id has length 10, hence is non-empty. -/
theorem id_from_log_line_ne_nil {l i : Str} (h : id_from_log_line l = some i) :
    i ≠ [] := by
  unfold id_from_log_line at h
  split at h
  · split at h
    · cases h
      rintro rfl
      simp_all
    · cases h
  · cases h

/-- While the `parse_mail` flag is set, one loop iteration never changes
the captured id: the marker branch is guarded by the negation of the flag. -/
theorem pmStep_id_frozen (st : PMState) (l : Str) (h : st.parseMail = true) :
    ((pmStep st l).1).id = st.id := by
  unfold pmStep
  simp only [h]
  repeat' split
  all_goals simp_all

/-! Claim theorems. -/

/-- Claim C1 counterexample: feeding `"ESMTPS id X"`, `"ESMTPS id Y"`,
`"To: <a@b.com>"`, `"Subject: hi"` emits exactly one record, whose id is
`X` — not zero records with id X as the claim predicts, because a marker
line seen while already Capturing does not restart the capture. -/
theorem claim_C1_cex :
    parseMailSubjects c1Lines = [⟨strX, none, some strHi, addrAB⟩] ∧
    ((parseMailSubjects c1Lines).filter fun m => decide (m.id = strX)) ≠ [] := by
  decide

/-- Claim C1 (amended): a line containing `"ESMTPS id"` read while already
Capturing does not restart the capture — the captured id is unchanged by
every line processed in the Capturing state — and the four-line input
yields exactly one record, with id `X`. -/
theorem claim_C1 :
    (∀ (st : PMState) (l : Str), st.parseMail = true → ((pmStep st l).1).id = st.id) ∧
    parseMailSubjects c1Lines = [⟨strX, none, some strHi, addrAB⟩] :=
  ⟨fun st l h => pmStep_id_frozen st l h, by decide⟩

/-- Claim C1 witness: the id-freezing part applied in the Capturing state
to a fresh marker line. -/
theorem claim_C1_witness :
    ((pmStep ⟨strX, [], [], true⟩ exMarkLine2).1).id = strX :=
  claim_C1.1 ⟨strX, [], [], true⟩ exMarkLine2 rfl

/-- Claim C2 counterexample: on `c2Line` every condition of the claim
holds — the `postfix/smtp[` marker, a valid 10-character id, and the text
strictly between the first `<` and the next `>` (`p<u@d`) contains `@` —
yet the source emits nothing, because `email_from_log_line` cuts the
candidate at the second `<`. -/
theorem claim_C2_cex :
    parseMails [c2Line] = [] ∧
    containsSeq c2Line smtpMarker = true ∧
    (id_from_log_line c2Line).isSome = true ∧
    specBetweenAngles c2Line = some c2SpecAddr ∧
    '@' ∈ c2SpecAddr := by
  decide

/-- Claim C2 (amended): `parse_mails` emits, in file order, one record per
line on which the marker is present and both extractions succeed, where
the recipient is `email_from_log_line` — the text after the first `<`,
cut at the second `<`, truncated at its first `>`, required to contain
`@` — and the id is the trimmed 4th colon field of exactly 10 characters;
the record carries no subject and the raw line itself. -/
theorem claim_C2 :
    (∀ ls, parseMails ls = ls.filterMap parseMailsLine) ∧
    (∀ l, (parseMailsLine l).isSome = true ↔
      containsSeq l smtpMarker = true ∧ (email_from_log_line l).isSome = true ∧
        (id_from_log_line l).isSome = true) ∧
    (∀ l m, parseMailsLine l = some m →
      email_from_log_line l = some m.toAddr ∧ id_from_log_line l = some m.id ∧
        m.subject = none ∧ m.line = some l) := by
  refine ⟨fun ls => by simpa using parseMailsLoop_eq ls [], fun l => ?_, fun l m h => ?_⟩
  · by_cases hc : containsSeq l smtpMarker = true
    · cases he : email_from_log_line l with
      | none => simp [parseMailsLine, hc, he]
      | some e =>
        cases hi : id_from_log_line l with
        | none => simp [parseMailsLine, hc, he, hi]
        | some i =>
          have h1 := email_from_log_line_ne_nil he
          have h2 := id_from_log_line_ne_nil hi
          simp [parseMailsLine, hc, he, hi, h1, h2]
    · simp [parseMailsLine, hc]
  · unfold parseMailsLine at h
    split at h
    · split at h
      · cases h
      · split at h
        · cases h
        · split at h
          · cases h
            simp_all
          · cases h
    · cases h

/-- Claim C2 witness: a fully matching delivery-log line is emitted. -/
theorem claim_C2_witness : (parseMailsLine wLogLine).isSome = true :=
  (claim_C2.2.1 wLogLine).2 (by decide)

/-- A non-empty pattern can only be a prefix of a list starting with the
pattern's first character. -/
theorem isPrefixOf_head {c : Char} {p l : Str} (h : (c :: p).isPrefixOf l = true) :
    ∃ t, l = c :: t := by
  cases l with
  | nil => simp [List.isPrefixOf] at h
  | cons d t =>
    simp [List.isPrefixOf] at h
    exact ⟨t, by rw [h.1]⟩

/-- A line starting with `"To: "` does not start with `"Subject: "`. -/
theorem subjPat_not_prefix_of_to {l : Str} (h : toPat.isPrefixOf l = true) :
    subjPat.isPrefixOf l = false := by
  have ht : toPat = 'T' :: "o: ".data := by decide
  rw [ht] at h
  obtain ⟨t, rfl⟩ := isPrefixOf_head h
  have hs : subjPat = 'S' :: "ubject: ".data := by decide
  rw [hs]
  simp [List.isPrefixOf]

/-- One `parse_mail_subjects` iteration on a marker line seen while Idle:
enter Capturing with the id set to the last whitespace token and the
other buffers cleared. -/
theorem pmStep_marker (st : PMState) (l : Str) (hIdle : st.parseMail = false)
    (h1 : containsSeq l esmtpsMarker = true)
    (h2 : toPat.isPrefixOf l = false) (h3 : subjPat.isPrefixOf l = false) :
    pmStep st l = (⟨(splitWs l).getLastD [], [], [], true⟩, none) := by
  unfold pmStep
  simp [hIdle, h1, h2, h3]

/-- One `parse_mail_subjects` iteration on a `To:` line while Capturing
with `to` and `subject` still unset: record the stripped recipient. -/
theorem pmStep_toLine (st : PMState) (l : Str) (hCap : st.parseMail = true)
    (hTo : st.toAddr = []) (hSub : st.subject = [])
    (h4 : toPat.isPrefixOf l = true) :
    pmStep st l = ({ st with toAddr := stripAngles (replaceSeq toPat [] l) }, none) := by
  have h5 := subjPat_not_prefix_of_to h4
  unfold pmStep
  simp [hCap, hTo, hSub, h4, h5]

/-- One `parse_mail_subjects` iteration on a `Subject:` line while
Capturing with `to` and `id` already set: record the subject and emit. -/
theorem pmStep_subjLine (st : PMState) (l : Str) (hCap : st.parseMail = true)
    (hTo : st.toAddr ≠ []) (hSub : st.subject = []) (hId : st.id ≠ [])
    (h5 : subjPat.isPrefixOf l = true) (h8 : replaceSeq subjPat [] l ≠ []) :
    pmStep st l = ({ st with subject := replaceSeq subjPat [] l, parseMail := false },
      some ⟨st.id, none, some (replaceSeq subjPat [] l), st.toAddr⟩) := by
  unfold pmStep
  simp [hCap, hTo, hSub, h5, h8, hId]

/-- Claim C3 counterexample: on the marker line, then `"To: aTo: b"`, then
`"Subject: hi"`, the emitted recipient is `ab` — the source's `replace`
removes every `"To: "` occurrence — and not the remainder after the
`"To: "` prefix (with angle brackets stripped) that the claim states. -/
theorem claim_C3_cex :
    parseMailSubjects c3Lines = [⟨strX, none, some strHi, c3CodeTo⟩] ∧
    c3CodeTo ≠ stripAngles (c3ToLine.drop toPat.length) := by
  decide

/-- Claim C3 (amended): a marker line (not itself a `To:`/`Subject:` line)
followed by a `To:` line and a `Subject:` line emits exactly one record:
id is the marker line's last whitespace token, the recipient is the `To:`
line with every `"To: "` occurrence removed and angle brackets stripped,
the subject is the `Subject:` line with every `"Subject: "` occurrence
removed, and the raw line is absent (all three values non-empty). -/
theorem claim_C3 (m tl sl : Str)
    (h1 : containsSeq m esmtpsMarker = true)
    (h2 : toPat.isPrefixOf m = false)
    (h3 : subjPat.isPrefixOf m = false)
    (h4 : toPat.isPrefixOf tl = true)
    (h5 : subjPat.isPrefixOf sl = true)
    (h6 : (splitWs m).getLastD [] ≠ [])
    (h7 : stripAngles (replaceSeq toPat [] tl) ≠ [])
    (h8 : replaceSeq subjPat [] sl ≠ []) :
    parseMailSubjects [m, tl, sl] =
      [⟨(splitWs m).getLastD [], none, some (replaceSeq subjPat [] sl),
        stripAngles (replaceSeq toPat [] tl)⟩] := by
  have s1 : pmStep ⟨[], [], [], false⟩ m = (⟨(splitWs m).getLastD [], [], [], true⟩, none) :=
    pmStep_marker _ m rfl h1 h2 h3
  have s2 : pmStep ⟨(splitWs m).getLastD [], [], [], true⟩ tl =
      (⟨(splitWs m).getLastD [], [], stripAngles (replaceSeq toPat [] tl), true⟩, none) :=
    pmStep_toLine _ tl rfl rfl rfl h4
  have s3 : pmStep ⟨(splitWs m).getLastD [], [], stripAngles (replaceSeq toPat [] tl), true⟩ sl =
      (⟨(splitWs m).getLastD [], replaceSeq subjPat [] sl,
          stripAngles (replaceSeq toPat [] tl), false⟩,
        some ⟨(splitWs m).getLastD [], none, some (replaceSeq subjPat [] sl),
          stripAngles (replaceSeq toPat [] tl)⟩) :=
    pmStep_subjLine _ sl rfl h7 rfl h6 h5 h8
  simp only [parseMailSubjects, pmLoop, s1, s2, s3]

/-- Claim C3 witness: the amended claim at the spec's own example. -/
theorem claim_C3_witness :
    parseMailSubjects [exMarkLine, exToLine, exSubjLine] =
      [⟨(splitWs exMarkLine).getLastD [], none, some (replaceSeq subjPat [] exSubjLine),
        stripAngles (replaceSeq toPat [] exToLine)⟩] :=
  claim_C3 exMarkLine exToLine exSubjLine (by decide) (by decide) (by decide) (by decide)
    (by decide) (by decide) (by decide) (by decide)

/-! Helper lemmas about the correlation table. -/

/-- A successful lookup returns an entry of the table. -/
theorem dbLookup_mem : ∀ {db : DB} {k : Str} {l : List Mail},
    dbLookup db k = some l → (k, l) ∈ db := by
  intro db
  induction db with
  | nil => intro k l h; cases h
  | cons p t ih =>
    intro k l h
    obtain ⟨k0, v0⟩ := p
    unfold dbLookup at h
    split at h
    · cases h
      simp_all
    · exact List.mem_cons_of_mem _ (ih h)

/-- Unfolding `BucketsOk` over a cons cell. -/
theorem bucketsOk_cons {k : Str} {v : List Mail} {t : DB} :
    BucketsOk ((k, v) :: t) ↔ (v.map Mail.id).Nodup ∧ BucketsOk t := by
  simp [BucketsOk]

/-- Unfolding `ToOk` over a cons cell. -/
theorem toOk_cons {k : Str} {v : List Mail} {t : DB} :
    ToOk ((k, v) :: t) ↔ (∀ r ∈ v, r.toAddr = k) ∧ ToOk t := by
  simp [ToOk]

/-- `insert_mails` of one record preserves per-bucket id uniqueness. -/
theorem insertOne_bucketsOk {db : DB} {m : Mail} (h : BucketsOk db) :
    BucketsOk (insertOne db m).1 := by
  induction db with
  | nil => simp [insertOne, BucketsOk]
  | cons p t ih =>
    obtain ⟨k, v⟩ := p
    rw [bucketsOk_cons] at h
    unfold insertOne
    split
    · split
      · exact bucketsOk_cons.2 h
      · rename_i hdup
        refine bucketsOk_cons.2 ⟨?_, h.2⟩
        simp only [List.map_append, List.map_cons, List.map_nil, List.nodup_append,
          List.nodup_cons, List.nodup_nil]
        refine ⟨h.1, by simp, ?_⟩
        intro x hx hx1
        simp only [List.mem_singleton] at hx1
        obtain ⟨r, hr, hrid⟩ := List.mem_map.1 hx
        exact hdup ⟨r, hr, by rw [hrid, hx1]⟩
    · exact bucketsOk_cons.2 ⟨h.1, ih h.2⟩

/-- `insert_mails` of one record keeps every record in its own bucket. -/
theorem insertOne_toOk {db : DB} {m : Mail} (h : ToOk db) :
    ToOk (insertOne db m).1 := by
  induction db with
  | nil => simp [insertOne, ToOk]
  | cons p t ih =>
    obtain ⟨k, v⟩ := p
    rw [toOk_cons] at h
    unfold insertOne
    split
    · rename_i hk
      split
      · exact toOk_cons.2 h
      · refine toOk_cons.2 ⟨?_, h.2⟩
        intro r hr
        rcases List.mem_append.1 hr with hr | hr
        · exact h.1 r hr
        · simp only [List.mem_singleton] at hr
          rw [hr, hk]
    · exact toOk_cons.2 ⟨h.1, ih h.2⟩

/-- Batched insertion preserves per-bucket id uniqueness. -/
theorem insertMails_bucketsOk {ms : List Mail} : ∀ {db : DB}, BucketsOk db →
    BucketsOk (insertMails db ms).1 := by
  induction ms with
  | nil => intro db h; simpa [insertMails] using h
  | cons m ms ih => intro db h; simpa [insertMails] using ih (insertOne_bucketsOk h)

/-- Batched insertion keeps every record in its own bucket. -/
theorem insertMails_toOk {ms : List Mail} : ∀ {db : DB}, ToOk db →
    ToOk (insertMails db ms).1 := by
  induction ms with
  | nil => intro db h; simpa [insertMails] using h
  | cons m ms ih => intro db h; simpa [insertMails] using ih (insertOne_toOk h)

/-- `RecFrame` is reflexive. -/
theorem recFrame_refl (r : Mail) : RecFrame r r := ⟨rfl, rfl, rfl, Or.inl rfl⟩

/-- `RecFrame` is transitive. -/
theorem recFrame_trans {a b c : Mail} (h : RecFrame a b) (g : RecFrame b c) :
    RecFrame a c := by
  obtain ⟨h1, h2, h3, h4⟩ := h
  obtain ⟨g1, g2, g3, g4⟩ := g
  refine ⟨g1.trans h1, g2.trans h2, g3.trans h3, ?_⟩
  rcases g4 with g4 | g4
  · rcases h4 with h4 | h4
    · exact Or.inl (g4.trans h4)
    · exact Or.inr h4
  · rcases h4 with h4 | h4
    · exact Or.inr (by rw [← h4]; exact g4)
    · exact Or.inr h4

/-- `Forall₂` of a reflexive relation holds on the diagonal. -/
theorem forall₂_refl_of {α : Type} {R : α → α → Prop} (hR : ∀ a, R a a) :
    ∀ l : List α, List.Forall₂ R l l := by
  intro l
  induction l with
  | nil => exact .nil
  | cons a t ih => exact .cons (hR a) ih

/-- `Forall₂` of a transitive relation composes. -/
theorem forall₂_trans_of {α : Type} {R : α → α → Prop}
    (hR : ∀ a b c, R a b → R b c → R a c) :
    ∀ {a b c : List α}, List.Forall₂ R a b → List.Forall₂ R b c → List.Forall₂ R a c := by
  intro a b c h
  induction h generalizing c with
  | nil => intro h2; cases h2; exact .nil
  | cons hab htail ih =>
    intro h2
    cases h2 with
    | cons hbc h2tail => exact .cons (hR _ _ _ hab hbc) (ih h2tail)

/-- The bucket scan of a subject update relates old and new bucket
records pointwise by `RecFrame`. -/
theorem updateBucket_forall₂ (m : Mail) (v : List Mail) :
    List.Forall₂ RecFrame v (updateBucket m v).1 := by
  induction v with
  | nil => exact .nil
  | cons r rs ih =>
    unfold updateBucket
    split
    · rename_i h
      exact .cons ⟨rfl, rfl, rfl, Or.inr h.1⟩ (forall₂_refl_of recFrame_refl rs)
    · exact .cons (recFrame_refl r) ih

/-- `PairFrame` is reflexive. -/
theorem pairFrame_refl (p : Str × List Mail) : PairFrame p p :=
  ⟨rfl, forall₂_refl_of recFrame_refl p.2⟩

/-- `PairFrame` is transitive. -/
theorem pairFrame_trans (a b c : Str × List Mail) (h : PairFrame a b) (g : PairFrame b c) :
    PairFrame a c :=
  ⟨g.1.trans h.1, @forall₂_trans_of Mail RecFrame (fun _ _ _ ha hb => recFrame_trans ha hb) a.2 b.2 c.2 h.2 g.2⟩

/-- A single subject update relates old and new table entries pointwise
by `PairFrame`. -/
theorem updateOne_forall₂ (db : DB) (m : Mail) :
    List.Forall₂ PairFrame db (updateOne db m).1 := by
  induction db with
  | nil => exact .nil
  | cons p t ih =>
    obtain ⟨k, v⟩ := p
    unfold updateOne
    split
    · exact .cons ⟨rfl, updateBucket_forall₂ m v⟩ (forall₂_refl_of pairFrame_refl t)
    · exact .cons (pairFrame_refl _) ih

/-- A batched subject update relates old and new table entries pointwise
by `PairFrame`. -/
theorem updateSubjects_forall₂ : ∀ (ms : List Mail) (db : DB),
    List.Forall₂ PairFrame db (updateSubjects db ms).1 := by
  intro ms
  induction ms with
  | nil => intro db; simpa [updateSubjects] using forall₂_refl_of pairFrame_refl db
  | cons m ms ih =>
    intro db
    have h1 := updateOne_forall₂ db m
    have h2 := ih (updateOne db m).1
    simpa [updateSubjects] using forall₂_trans_of pairFrame_trans h1 h2

/-- `PairFrame`-related tables have identical key sequences. -/
theorem pairFrame_keys : ∀ {db db' : DB}, List.Forall₂ PairFrame db db' →
    db'.map Prod.fst = db.map Prod.fst := by
  intro db db' h
  induction h with
  | nil => rfl
  | cons hp htail ih => simp [ih, hp.1]

/-- `RecFrame`-related buckets have identical id sequences. -/
theorem forall₂_map_id : ∀ {v v' : List Mail}, List.Forall₂ RecFrame v v' →
    v'.map Mail.id = v.map Mail.id := by
  intro v v' h
  induction h with
  | nil => rfl
  | cons hr htail ih => simp [ih, hr.1]

/-- `RecFrame`-related buckets have identical recipient sequences. -/
theorem forall₂_map_toAddr : ∀ {v v' : List Mail}, List.Forall₂ RecFrame v v' →
    v'.map Mail.toAddr = v.map Mail.toAddr := by
  intro v v' h
  induction h with
  | nil => rfl
  | cons hr htail ih => simp [ih, hr.2.1]

/-- The frame relation preserves per-bucket id uniqueness. -/
theorem bucketsOk_of_forall₂ : ∀ {db db' : DB}, List.Forall₂ PairFrame db db' →
    BucketsOk db → BucketsOk db' := by
  intro db db' h
  induction h with
  | nil => exact fun h => h
  | cons hp htail ih =>
    rename_i p q t t'
    intro hok
    obtain ⟨k, v⟩ := p
    obtain ⟨k', v'⟩ := q
    rw [bucketsOk_cons] at hok
    refine bucketsOk_cons.2 ⟨?_, ih hok.2⟩
    rw [forall₂_map_id hp.2]
    exact hok.1

/-- The frame relation keeps every record in its own bucket. -/
theorem toOk_of_forall₂ : ∀ {db db' : DB}, List.Forall₂ PairFrame db db' →
    ToOk db → ToOk db' := by
  intro db db' h
  induction h with
  | nil => exact fun h => h
  | cons hp htail ih =>
    rename_i p q t t'
    intro hok
    obtain ⟨k, v⟩ := p
    obtain ⟨k', v'⟩ := q
    rw [toOk_cons] at hok
    refine toOk_cons.2 ⟨?_, ih hok.2⟩
    intro r' hr'
    have hmem : r'.toAddr ∈ v'.map Mail.toAddr := List.mem_map_of_mem _ hr'
    rw [forall₂_map_toAddr hp.2] at hmem
    obtain ⟨r, hr, hra⟩ := List.mem_map.1 hmem
    rw [← hra, hok.1 r hr]
    exact (hp.1).symm

/-- Batched subject updates preserve per-bucket id uniqueness. -/
theorem updateSubjects_bucketsOk {db : DB} {ms : List Mail} (h : BucketsOk db) :
    BucketsOk (updateSubjects db ms).1 :=
  bucketsOk_of_forall₂ (updateSubjects_forall₂ ms db) h

/-- Batched subject updates keep every record in its own bucket. -/
theorem updateSubjects_toOk {db : DB} {ms : List Mail} (h : ToOk db) :
    ToOk (updateSubjects db ms).1 :=
  toOk_of_forall₂ (updateSubjects_forall₂ ms db) h

/-- Every table reachable from empty by batch operations has pairwise
distinct ids within each bucket. -/
theorem applyOps_bucketsOk (ops : List Op) : BucketsOk (applyOps ops) := by
  have key : ∀ (ops : List Op) (db : DB), BucketsOk db →
      BucketsOk (List.foldl applyOp db ops) := by
    intro ops
    induction ops with
    | nil => exact fun db h => h
    | cons op ops ih =>
      intro db h
      refine ih _ ?_
      cases op with
      | insertOp ms => exact insertMails_bucketsOk h
      | updateOp ms => exact updateSubjects_bucketsOk h
  exact key ops [] (by simp [BucketsOk])

/-- After inserting a record, its bucket holds a record with its id. -/
theorem insertOne_mem (db : DB) (m : Mail) :
    ∃ l, dbLookup (insertOne db m).1 m.toAddr = some l ∧ ∃ r ∈ l, r.id = m.id := by
  induction db with
  | nil => exact ⟨[m], by simp [insertOne, dbLookup], m, by simp⟩
  | cons p t ih =>
    obtain ⟨k, v⟩ := p
    unfold insertOne
    split
    · rename_i hk
      split
      · rename_i hdup
        exact ⟨v, by simp [dbLookup, hk], hdup⟩
      · exact ⟨v ++ [m], by simp [dbLookup, hk], m, by simp⟩
    · rename_i hk
      obtain ⟨l, hl, hr⟩ := ih
      exact ⟨l, by simpa [dbLookup, hk] using hl, hr⟩

/-- Inserting a record whose id already sits in its bucket is a no-op
counted as zero. -/
theorem insertOne_already : ∀ {db : DB} {m : Mail} {l : List Mail},
    dbLookup db m.toAddr = some l → (∃ r ∈ l, r.id = m.id) → insertOne db m = (db, 0) := by
  intro db
  induction db with
  | nil => intro m l h; cases h
  | cons p t ih =>
    intro m l h hr
    obtain ⟨k, v⟩ := p
    unfold dbLookup at h
    unfold insertOne
    split
    · rename_i hk
      split
      · rfl
      · rename_i hdup
        rw [if_pos hk] at h
        cases h
        exact absurd hr hdup
    · rename_i hk
      rw [if_neg hk] at h
      simp [ih h hr]

/-- In a bucket with pairwise distinct ids, a present id is counted by
`filter` exactly once. -/
theorem filter_id_length_one : ∀ {v : List Mail} {i : Str},
    (v.map Mail.id).Nodup → (∃ r ∈ v, r.id = i) →
    (v.filter fun r => decide (r.id = i)).length = 1 := by
  intro v
  induction v with
  | nil => intro i _ hm; simp at hm
  | cons r rs ih =>
    intro i hnd hm
    simp only [List.map_cons, List.nodup_cons] at hnd
    by_cases h : r.id = i
    · have hnone : rs.filter (fun r => decide (r.id = i)) = [] := by
        rw [List.filter_eq_nil_iff]
        intro x hx
        simp only [decide_eq_true_eq]
        intro hxi
        have hxr : x.id = r.id := by rw [hxi, h]
        exact hnd.1 (hxr ▸ List.mem_map_of_mem Mail.id hx)
      simp [List.filter_cons, h, hnone]
    · rcases hm with ⟨r', hr', hri⟩
      rcases List.mem_cons.1 hr' with rfl | hr'
      · exact absurd hri h
      · simpa [List.filter_cons, h] using ih hnd.2 ⟨r', hr', hri⟩

/-- Equation lemma for `updateBucket` on a cons cell. -/
theorem updateBucket_cons (m r : Mail) (rs : List Mail) :
    updateBucket m (r :: rs) =
      if r.subject = none ∧ r.id = m.id then ({ r with subject := m.subject } :: rs, 1)
      else (r :: (updateBucket m rs).1, (updateBucket m rs).2) := by
  rw [updateBucket]

/-- Equation lemma for `updateOne` on a cons cell. -/
theorem updateOne_cons (k : Str) (v : List Mail) (t : DB) (m : Mail) :
    updateOne ((k, v) :: t) m =
      if k = m.toAddr then ((k, (updateBucket m v).1) :: t, (updateBucket m v).2)
      else ((k, v) :: (updateOne t m).1, (updateOne t m).2) := by
  rw [updateOne]

/-- A bucket scan with no matching record changes nothing. -/
theorem updateBucket_no_match : ∀ {v : List Mail} {m : Mail},
    (∀ r ∈ v, ¬(r.subject = none ∧ r.id = m.id)) → updateBucket m v = (v, 0) := by
  intro v
  induction v with
  | nil => intro m _; rfl
  | cons r rs ih =>
    intro m h
    rw [updateBucket_cons, if_neg (h r (by simp))]
    simp [ih fun x hx => h x (by simp [hx])]

/-- The bucket scan updates exactly the first matching record. -/
theorem updateBucket_first_match (m r : Mail) : ∀ (l1 : List Mail) (l2 : List Mail),
    r.subject = none → r.id = m.id →
    (∀ x ∈ l1, ¬(x.subject = none ∧ x.id = m.id)) →
    updateBucket m (l1 ++ r :: l2) = (l1 ++ { r with subject := m.subject } :: l2, 1) := by
  intro l1
  induction l1 with
  | nil =>
    intro l2 h1 h2 _
    simp only [List.nil_append]
    rw [updateBucket_cons, if_pos ⟨h1, h2⟩]
  | cons x xs ih =>
    intro l2 h1 h2 h
    have hx : ¬(x.subject = none ∧ x.id = m.id) := h x (by simp)
    simp only [List.cons_append]
    rw [updateBucket_cons, if_neg hx]
    simp [ih l2 h1 h2 fun y hy => h y (by simp [hy])]

/-- A second identical subject-bearing update of a bucket with distinct
ids finds no unset target and changes nothing. -/
theorem updateBucket_idem : ∀ {v v' : List Mail} {m : Mail} {s : Str},
    (v.map Mail.id).Nodup → m.subject = some s → updateBucket m v = (v', 1) →
    updateBucket m v' = (v', 0) := by
  intro v
  induction v with
  | nil => intro v' m s _ _ h; simp [updateBucket] at h
  | cons r rs ih =>
    intro v' m s hnd hs h
    simp only [List.map_cons, List.nodup_cons] at hnd
    rw [updateBucket_cons] at h
    split at h
    · rename_i hcond
      cases h
      rw [updateBucket_cons, if_neg (by simp [hs])]
      have hrest : updateBucket m rs = (rs, 0) := by
        refine updateBucket_no_match fun x hx => ?_
        rintro ⟨_, hxid⟩
        have hxr : x.id = r.id := by rw [hxid, ← hcond.2]
        exact hnd.1 (hxr ▸ List.mem_map_of_mem Mail.id hx)
      simp [hrest]
    · rename_i hcond
      have hpair : updateBucket m rs = ((updateBucket m rs).1, 1) := by
        have h2 : (updateBucket m rs).2 = 1 := by
          have := congrArg Prod.snd h
          simpa using this
        exact Prod.ext rfl h2
      have hv' : v' = r :: (updateBucket m rs).1 := by
        have := congrArg Prod.fst h
        simpa using this.symm
      subst hv'
      have hrec := ih hnd.2 hs hpair
      rw [updateBucket_cons, if_neg hcond]
      simp [hrec]

/-- A second identical subject-bearing update of a table with per-bucket
distinct ids changes nothing. -/
theorem updateOne_idem : ∀ {db db' : DB} {m : Mail} {s : Str},
    BucketsOk db → m.subject = some s → updateOne db m = (db', 1) →
    updateOne db' m = (db', 0) := by
  intro db
  induction db with
  | nil => intro db' m s _ _ h; simp [updateOne] at h
  | cons p t ih =>
    intro db' m s hok hs h
    obtain ⟨k, v⟩ := p
    rw [bucketsOk_cons] at hok
    rw [updateOne_cons] at h
    split at h
    · rename_i hk
      have hcnt : (updateBucket m v).2 = 1 := by
        have := congrArg Prod.snd h
        simpa using this
      have hdb' : db' = (k, (updateBucket m v).1) :: t := by
        have := congrArg Prod.fst h
        simpa using this.symm
      subst hdb'
      have hb := updateBucket_idem hok.1 hs (Prod.ext rfl hcnt)
      rw [updateOne_cons, if_pos hk]
      simp [hb]
    · rename_i hk
      have hcnt : (updateOne t m).2 = 1 := by
        have := congrArg Prod.snd h
        simpa using this
      have hdb' : db' = (k, v) :: (updateOne t m).1 := by
        have := congrArg Prod.fst h
        simpa using this.symm
      subst hdb'
      have hrec := ih hok.2 hs (Prod.ext rfl hcnt)
      rw [updateOne_cons, if_neg hk]
      simp [hrec]

/-- A subject update against a missing bucket is a counted-zero no-op. -/
theorem updateOne_nobucket : ∀ {db : DB} {m : Mail},
    dbLookup db m.toAddr = none → updateOne db m = (db, 0) := by
  intro db
  induction db with
  | nil => intro m _; rfl
  | cons p t ih =>
    intro m h
    obtain ⟨k, v⟩ := p
    unfold dbLookup at h
    split at h
    · cases h
    · rename_i hk
      unfold updateOne
      rw [if_neg hk]
      simp [ih h]

/-- A one-record `update_mail_subjects` batch is one `updateOne` call. -/
theorem updateSubjects_single (db : DB) (m : Mail) :
    updateSubjects db [m] = ((updateOne db m).1, (updateOne db m).2) := by
  simp [updateSubjects]

/-- Every table reachable from empty by batch operations keeps records in
the buckets of their own recipient. -/
theorem applyOps_toOk (ops : List Op) : ToOk (applyOps ops) := by
  have key : ∀ (ops : List Op) (db : DB), ToOk db →
      ToOk (List.foldl applyOp db ops) := by
    intro ops
    induction ops with
    | nil => exact fun db h => h
    | cons op ops ih =>
      intro db h
      refine ih _ ?_
      cases op with
      | insertOp ms => exact insertMails_toOk h
      | updateOp ms => exact updateSubjects_toOk h
  exact key ops [] (by simp [ToOk])

/-- Claim C4: under any sequence of insert/update batches from the empty
table, every bucket has pairwise distinct ids; and inserting the same
`(to, id)` pair twice — across batches or inside one batch — leaves
exactly one stored record for the pair, with the duplicate counted zero. -/
theorem claim_C4 :
    (∀ (ops : List Op) (k : Str) (l : List Mail),
      dbLookup (applyOps ops) k = some l → (l.map Mail.id).Nodup) ∧
    (∀ (db : DB) (m : Mail), BucketsOk db →
      insertMails (insertMails db [m]).1 [m] = ((insertMails db [m]).1, 0) ∧
      countPair (insertMails db [m]).1 m.toAddr m.id = 1 ∧
      (insertMails db [m, m]).1 = (insertMails db [m]).1) := by
  constructor
  · intro ops k l h
    exact applyOps_bucketsOk ops (k, l) (dbLookup_mem h)
  · intro db m hok
    obtain ⟨l, hl, hr⟩ := insertOne_mem db m
    have h2 : insertOne (insertOne db m).1 m = ((insertOne db m).1, 0) :=
      insertOne_already hl hr
    refine ⟨by simp [insertMails, h2], ?_, by simp [insertMails, h2]⟩
    have hok1 : BucketsOk (insertOne db m).1 := insertOne_bucketsOk hok
    have hnd : (l.map Mail.id).Nodup := hok1 (m.toAddr, l) (dbLookup_mem hl)
    simp only [insertMails, countPair, bucketOf]
    rw [hl]
    exact filter_id_length_one hnd hr

/-- Claim C4 witness: the invariant on a one-insert history, and the
duplicate-insert facts on the empty table. -/
theorem claim_C4_witness :
    (([wMailA].map Mail.id).Nodup) ∧
    countPair (insertMails [] [wMailA]).1 wMailA.toAddr wMailA.id = 1 :=
  ⟨claim_C4.1 [.insertOp [wMailA]] addrAB [wMailA] (by decide),
    (claim_C4.2 [] wMailA (by simp [BucketsOk])).2.1⟩

/-- Claim C5: `update_mail_subjects` sets the subject of the first record
of the bucket whose id matches and whose subject is unset, stopping
there; and — on a table with per-bucket distinct ids — a second call with
the same subject-bearing record after a successful first call changes
nothing and counts zero. -/
theorem claim_C5 :
    (∀ (m r : Mail) (l1 l2 : List Mail), r.subject = none → r.id = m.id →
      (∀ x ∈ l1, ¬(x.subject = none ∧ x.id = m.id)) →
      updateBucket m (l1 ++ r :: l2) = (l1 ++ { r with subject := m.subject } :: l2, 1)) ∧
    (∀ (db : DB) (m : Mail) (s : Str), m.subject = some s → BucketsOk db →
      (updateSubjects db [m]).2 = 1 →
      updateSubjects (updateSubjects db [m]).1 [m] = ((updateSubjects db [m]).1, 0)) := by
  refine ⟨fun m r l1 l2 h1 h2 h => updateBucket_first_match m r l1 l2 h1 h2 h,
    fun db m s hs hok hc => ?_⟩
  rw [updateSubjects_single] at hc ⊢
  have h1 : updateOne db m = ((updateOne db m).1, 1) := Prod.ext rfl (by simpa using hc)
  have h2 := updateOne_idem hok hs h1
  rw [updateSubjects_single, h2]

/-- Claim C5 witness: the first-match part applied to a singleton bucket. -/
theorem claim_C5_witness :
    updateBucket wMailAS [wMailA] = ([{ wMailA with subject := wMailAS.subject }], 1) :=
  claim_C5.1 wMailAS wMailA [] [] rfl rfl (by simp)

/-- Claim C6: a subject-update batch never changes the key sequence of
the table, never adds or removes records, and never touches id, recipient
or raw line — each record's subject is either kept or was previously
unset (the `PairFrame`/`RecFrame` relation) — and a record whose
recipient has no bucket yields no change and count zero. -/
theorem claim_C6 :
    (∀ (db : DB) (ms : List Mail),
      ((updateSubjects db ms).1).map Prod.fst = db.map Prod.fst) ∧
    (∀ (db : DB) (ms : List Mail), List.Forall₂ PairFrame db (updateSubjects db ms).1) ∧
    (∀ (db : DB) (m : Mail), dbLookup db m.toAddr = none →
      updateSubjects db [m] = (db, 0)) := by
  refine ⟨fun db ms => pairFrame_keys (updateSubjects_forall₂ ms db),
    fun db ms => updateSubjects_forall₂ ms db,
    fun db m h => ?_⟩
  rw [updateSubjects_single, updateOne_nobucket h]

/-- Claim C6 witness: an update against the empty table is dropped. -/
theorem claim_C6_witness : updateSubjects [] [wMailAS] = ([], 0) :=
  claim_C6.2.2 [] wMailAS rfl

/-- Claim C10: in every table reachable from empty by insert/update
batches, each record stored under a recipient key has that key as its own
recipient address. -/
theorem claim_C10 :
    ∀ (ops : List Op) (k : Str) (l : List Mail),
      dbLookup (applyOps ops) k = some l → ∀ r ∈ l, r.toAddr = k :=
  fun ops k l h => applyOps_toOk ops (k, l) (dbLookup_mem h)

/-- Claim C10 witness: the bucket invariant on a one-insert history. -/
theorem claim_C10_witness : wMailA.toAddr = addrAB :=
  claim_C10 [.insertOp [wMailA]] addrAB [wMailA] (by decide) wMailA (by simp)

/-! Helper lemmas about the file tailer. -/

/-- The retry loop succeeds exactly when one of the first `n` watch
attempts succeeds, and a success leaves the cursor at offset zero. -/
theorem ftRetry_spec : ∀ (n : Nat) (st : TailState) (oracle : List Bool),
    ((ftRetry st n oracle).2 = true ↔ true ∈ oracle.take n) ∧
    ((ftRetry st n oracle).2 = true → (ftRetry st n oracle).1 = ⟨0⟩) := by
  intro n
  induction n with
  | zero => intro st oracle; simp [ftRetry]
  | succ n ih =>
    intro st oracle
    cases oracle with
    | nil => simpa [ftRetry] using ih ⟨0⟩ []
    | cons b bs =>
      cases b with
      | false => simpa [ftRetry] using ih ⟨0⟩ bs
      | true => simp [ftRetry]

/-- Claim C7: `parse_event` on a create or remove event resets the offset
to zero (re-subscribing the watch) and reads the whole current content,
leaving the offset at the file length; a modify event reads from the
current offset and advances to the file length; an access event yields no
lines and no offset change; any other event kind yields an
unhandled-event error, no output and no offset change, and the tail loop
simply skips such an event. -/
theorem claim_C7 :
    ∀ (st : TailState) (c : Str) (w : Bool) (e : EvInput) (rest : List EvInput),
      parseEvent (.ok .create) true (some c) st = (⟨c.length⟩, .ok (some c)) ∧
      parseEvent (.ok .remove) true (some c) st = (⟨c.length⟩, .ok (some c)) ∧
      parseEvent (.ok .modify) w (some c) st = (⟨c.length⟩, .ok (some (c.drop st.pos))) ∧
      parseEvent (.ok .access) w (some c) st = (st, .ok none) ∧
      parseEvent (.ok .other) w (some c) st = (st, .error (.unhandledEvent .other)) ∧
      (e.ev = .ok .other → ftTail st (e :: rest) = ftTail st rest) := by
  intro st c w e rest
  refine ⟨by simp [parseEvent, ftReset, ftRead], by simp [parseEvent, ftReset, ftRead],
    by simp [parseEvent, ftRead], by simp [parseEvent], by simp [parseEvent], ?_⟩
  intro h
  obtain ⟨ev, wOk, file, resets⟩ := e
  simp only at h
  subst h
  simp [ftTail, parseEvent]

/-- Claim C7 witness: the tail loop skips an unhandled event. -/
theorem claim_C7_witness :
    ftTail ⟨0⟩ [⟨.ok .other, true, none, []⟩] = ftTail ⟨0⟩ [] :=
  (claim_C7 ⟨0⟩ [] true ⟨.ok .other, true, none, []⟩ []).2.2.2.2.2 rfl

/-- Claim C8: a file-reading failure while handling an event sends the
tailer into the 5-attempt retry loop; if one of the first five watch
attempts succeeds, tailing continues from offset zero on the re-watched
file, and if all five fail, the tail run ends in the retry-exhausted
(fatal-for-this-tailer) outcome. -/
theorem claim_C8 :
    ∀ (st : TailState) (w : Bool) (oracle : List Bool) (rest : List EvInput),
      ((ftRetry st 5 oracle).2 = true ↔ true ∈ oracle.take 5) ∧
      (true ∈ oracle.take 5 →
        ftTail st (⟨.ok .modify, w, none, oracle⟩ :: rest) = ftTail ⟨0⟩ rest) ∧
      (true ∉ oracle.take 5 →
        ftTail st (⟨.ok .modify, w, none, oracle⟩ :: rest) = ([], .retryExhausted)) := by
  intro st w oracle rest
  have hs := ftRetry_spec 5 st oracle
  refine ⟨hs.1, ?_, ?_⟩
  · intro h
    have h2 : (ftRetry st 5 oracle).2 = true := hs.1.2 h
    have h3 := hs.2 h2
    simp [ftTail, parseEvent, ftRead, h2, h3]
  · intro h
    have h2 : (ftRetry st 5 oracle).2 = false := by
      cases hb : (ftRetry st 5 oracle).2 with
      | false => rfl
      | true => exact absurd (hs.1.1 hb) h
    simp [ftTail, parseEvent, ftRead, h2]

/-- Claim C8 witness: a vanished file with a first successful re-watch
resumes from offset zero. -/
theorem claim_C8_witness :
    ftTail ⟨3⟩ [⟨.ok .modify, true, none, [true]⟩] = ftTail ⟨0⟩ [] :=
  (claim_C8 ⟨3⟩ true [true] []).2.1 (by decide)

/-! Helper lemmas about the query endpoint's ordering. -/

/-- `lexLe` is total. -/
theorem lexLe_total : ∀ (a b : Str), lexLe a b = true ∨ lexLe b a = true := by
  intro a
  induction a with
  | nil => intro b; left; rfl
  | cons x xs ih =>
    intro b
    cases b with
    | nil => right; rfl
    | cons y ys =>
      rcases Nat.lt_trichotomy x.toNat y.toNat with h | h | h
      · left; simp [lexLe, h]
      · rcases ih ys with h1 | h1
        · left; simp [lexLe, h, h1]
        · right; simp [lexLe, h.symm, h1]
      · right; simp [lexLe, h]

/-- `lexLe` is transitive. -/
theorem lexLe_trans : ∀ (a b c : Str),
    lexLe a b = true → lexLe b c = true → lexLe a c = true := by
  intro a
  induction a with
  | nil => intro b c _ _; rfl
  | cons x xs ih =>
    intro b c hab hbc
    cases b with
    | nil => simp [lexLe] at hab
    | cons y ys =>
      cases c with
      | nil => simp [lexLe] at hbc
      | cons z zs =>
        simp only [lexLe] at hab hbc ⊢
        by_cases hxy : x.toNat < y.toNat
        · by_cases hyz : y.toNat < z.toNat
          · simp [Nat.lt_trans hxy hyz]
          · by_cases hzy : z.toNat < y.toNat
            · simp [hyz, hzy] at hbc
            · have hyz' : y.toNat = z.toNat := by omega
              simp [hyz' ▸ hxy]
        · by_cases hyx : y.toNat < x.toNat
          · simp [hxy, hyx] at hab
          · have hxy' : x.toNat = y.toNat := by omega
            simp [hxy', lt_self_iff_false] at hab
            by_cases hyz : y.toNat < z.toNat
            · simp [hxy' ▸ hyz]
            · by_cases hzy : z.toNat < y.toNat
              · simp [hyz, hzy] at hbc
              · have hyz' : y.toNat = z.toNat := by omega
                simp [hyz', lt_self_iff_false] at hbc
                have := ih ys zs hab hbc
                simp [hxy', hyz', this]

/-- `lineLe` is total. -/
theorem lineLe_total : ∀ (a b : Option Str), lineLe a b = true ∨ lineLe b a = true := by
  intro a b
  cases a with
  | none => left; rfl
  | some a =>
    cases b with
    | none => right; rfl
    | some b => exact lexLe_total a b

/-- `lineLe` is transitive. -/
theorem lineLe_trans : ∀ (a b c : Option Str),
    lineLe a b = true → lineLe b c = true → lineLe a c = true := by
  intro a b c hab hbc
  cases a with
  | none => rfl
  | some a =>
    cases b with
    | none => simp [lineLe] at hab
    | some b =>
      cases c with
      | none => simp [lineLe] at hbc
      | some c => exact lexLe_trans a b c hab hbc

/-- The comparator-sorted bucket is sorted under `mailLe`. -/
theorem sortByLine_sorted (v : List Mail) : List.Sorted mailLe (sortByLine v) :=
  @List.sorted_insertionSort Mail mailLe _
    ⟨fun a b => lineLe_total a.line b.line⟩
    ⟨fun _ _ _ hab hbc => lineLe_trans _ _ _ hab hbc⟩ v

/-- The comparator-sorted bucket is a permutation of the bucket. -/
theorem sortByLine_perm (v : List Mail) : (sortByLine v).Perm v :=
  List.perm_insertionSort mailLe v

/-- Claim C9: `find_mail` answers 404 with no result map exactly when
every address-matching bucket filters to empty; otherwise it answers 200
with a map whose entries are exactly the address-matching recipients with
a non-empty subject-filtered bucket, each bucket sorted ascending by raw
delivery-log line (absent lines first) and — under a subject filter —
containing only records whose subject is set and case-insensitively
contains the filter. -/
theorem claim_C9 :
    ∀ (db : DB) (q : FindMailQuery),
      ((findMail q db).status = 404 ↔ (findMail q db).results = none) ∧
      (∀ out, (findMail q db).results = some out →
        out ≠ [] ∧
        (∀ p ∈ out,
          containsSeq p.1 q.email_address_filter = true ∧
          p.2 ≠ [] ∧
          List.Sorted mailLe p.2 ∧
          (∃ b, (p.1, b) ∈ db ∧ p.2.Perm (bucketFilter q b)) ∧
          (∀ f, q.subject_filter = some f → ∀ m ∈ p.2, ∃ s, m.subject = some s ∧
            containsSeq (lowerSeq s) (lowerSeq f) = true)) ∧
        (∀ p ∈ db, containsSeq p.1 q.email_address_filter = true →
          bucketFilter q p.2 ≠ [] → (p.1, sortByLine (bucketFilter q p.2)) ∈ out)) ∧
      ((findMail q db).results = none →
        ∀ p ∈ db, containsSeq p.1 q.email_address_filter = true →
          bucketFilter q p.2 = []) := by
  intro db q
  by_cases hr : findResults q db = []
  · have hfm : findMail q db = ⟨404, none⟩ := by
      simp [findMail, hr]
    rw [hfm]
    refine ⟨by simp, fun out h => by simp at h, fun _ p hp hc => ?_⟩
    have hx : (p.1, sortByLine (bucketFilter q p.2)) ∈
        (db.filter fun p => containsSeq p.1 q.email_address_filter).map
          (fun p => (p.1, sortByLine (bucketFilter q p.2))) :=
      List.mem_map_of_mem _ (List.mem_filter.2 ⟨hp, hc⟩)
    have hempty := (List.filter_eq_nil_iff.1 hr) _ hx
    have hsort : sortByLine (bucketFilter q p.2) = [] := by
      simpa using hempty
    have hperm := sortByLine_perm (bucketFilter q p.2)
    rw [hsort] at hperm
    exact hperm.symm.eq_nil
  · have hne : (findResults q db).isEmpty = false := by
      simpa [List.isEmpty_iff] using hr
    have hfm : findMail q db = ⟨200, some (findResults q db)⟩ := by
      simp [findMail, hne]
    rw [hfm]
    refine ⟨by simp, fun out h => ?_, by simp⟩
    have hout : out = findResults q db := by simpa using h.symm
    subst hout
    refine ⟨hr, fun p hp => ?_, fun p hp hc hbne => ?_⟩
    · simp only [findResults] at hp
      obtain ⟨hpm, hpe⟩ := List.mem_filter.1 hp
      obtain ⟨p0, hp0, hfp0⟩ := List.mem_map.1 hpm
      obtain ⟨hp0db, hp0c⟩ := List.mem_filter.1 hp0
      refine ⟨?_, by simpa using hpe, ?_, ?_, ?_⟩
      · rw [← hfp0]
        exact hp0c
      · rw [← hfp0]
        exact sortByLine_sorted _
      · refine ⟨p0.2, by simpa [← hfp0] using hp0db, ?_⟩
        rw [← hfp0]
        exact sortByLine_perm _
      · intro f hf m hm
        rw [← hfp0] at hm
        have hmem : m ∈ bucketFilter q p0.2 := (sortByLine_perm _).mem_iff.1 hm
        rw [bucketFilter, hf] at hmem
        obtain ⟨_, hpred⟩ := List.mem_filter.1 hmem
        cases hms : m.subject with
        | none => rw [hms] at hpred; simp at hpred
        | some s =>
          rw [hms] at hpred
          exact ⟨s, rfl, by simpa using hpred⟩
    · simp only [findResults]
      refine List.mem_filter.2 ⟨List.mem_map_of_mem _ (List.mem_filter.2 ⟨hp, hc⟩), ?_⟩
      have hsne : sortByLine (bucketFilter q p.2) ≠ [] := by
        intro h0
        have hperm := sortByLine_perm (bucketFilter q p.2)
        rw [h0] at hperm
        exact hbne hperm.symm.eq_nil
      simpa using hsne

/-- Claim C9 witness: an entry of the result map matches the address
filter. -/
theorem claim_C9_witness : containsSeq addrAB wQuery.email_address_filter = true :=
  (((claim_C9 wDb9 wQuery).2.1 wOut9 (by decide)).2.1 (addrAB, [wMailA]) (by decide)).1

end LinuxMailDb
